import Mathlib

/-!
# Verification of the Connect-Four backend (board engine, session registry, bot)

Shallow embedding of the Go backend: the board engine (`Game.MakeMove`,
`checkWin`, `isBoardFull`, `GetValidMoves`), the session registry
(`Manager.FindOrCreateGame`, `Manager.JoinSpecificGame`,
`Manager.updateLeaderboard`) and the heuristic bot
(`Bot.GetBestMoveWithDifficulty`, `Bot.findBestStrategicMove`).

Randomness (`rand.Float64`, `rand.Intn`) is modelled by explicit oracle
parameters recording the outcome of each draw, and wall-clock time and
UUID generation are modelled by explicit parameters; everything else is a
direct translation of the Go code.
-/

namespace Connect4

/-- The board constants from the Go source. -/
def ROWS : Nat := 6

def COLS : Nat := 7

def EMPTY : Int := 0

def PLAYER1 : Int := 1

def PLAYER2 : Int := 2

/-- A 6×7 grid of Go `int` cell values, row 0 at the top (as in the Go
`[][]int` board allocated by `NewGame`). -/
abbrev Board := Fin 6 → Fin 7 → Int

/-- The all-empty board built by `NewGame`. -/
def emptyBoard : Board := fun _ _ => EMPTY

/-- In-range test used by the Go code before every raw board access. -/
def inBounds (r c : Int) : Bool :=
  decide (0 ≤ r) && decide (r < 6) && decide (0 ≤ c) && decide (c < 7)

/-- Read `board[r][c]`; the Go code only reads after an `inBounds` check,
so the out-of-range default is never observable. -/
def getCell (b : Board) (r c : Int) : Int :=
  if h : 0 ≤ r ∧ r < 6 ∧ 0 ≤ c ∧ c < 7 then
    b ⟨r.toNat, by omega⟩ ⟨c.toNat, by omega⟩
  else EMPTY

/-- Write a single cell (`board[r][c] = v` in Go). -/
def setCell (b : Board) (r : Fin 6) (c : Fin 7) (v : Int) : Board :=
  fun r' c' => if r' = r ∧ c' = c then v else b r' c'

theorem getCell_fin (b : Board) (r : Fin 6) (c : Fin 7) :
    getCell b (r : Int) (c : Int) = b r c := by
  have hr := r.isLt
  have hc := c.isLt
  have hcond : (0 : Int) ≤ (r : Int) ∧ (r : Int) < 6 ∧ (0 : Int) ≤ (c : Int) ∧ (c : Int) < 7 := by
    exact ⟨by positivity, by exact_mod_cast hr, by positivity, by exact_mod_cast hc⟩
  simp only [getCell, dif_pos hcond]
  congr 1

theorem setCell_same (b : Board) (r : Fin 6) (c : Fin 7) (v : Int) :
    setCell b r c v r c = v := by
  simp [setCell]

theorem setCell_other (b : Board) (r : Fin 6) (c : Fin 7) (v : Int)
    (r' : Fin 6) (c' : Fin 7) (h : ¬(r' = r ∧ c' = c)) :
    setCell b r c v r' c' = b r' c' := by
  simp only [setCell, if_neg h]

/-! ## Win detection (`Game.checkWin`; `Bot.checkWin` is a verbatim copy) -/

/-- The four scan axes of `checkWin`: horizontal, vertical, the two
diagonals. -/
def directions : List (Int × Int) := [(0, 1), (1, 0), (1, 1), (1, -1)]

/-- One arm of the `for i := 1; i < 4; i++` scan of `checkWin`: the number
of consecutive in-range cells equal to `player` walking from `(r, c)` in
direction `(dr, dc)`, stopping at the first mismatch or border, capped by
`fuel` (the Go loop bound, 3). -/
def runLenAux (b : Board) (player : Int) (r c dr dc : Int) : Nat → Nat
  | 0 => 0
  | fuel + 1 =>
    if inBounds (r + dr) (c + dc) && (getCell b (r + dr) (c + dc) == player) then
      1 + runLenAux b player (r + dr) (c + dc) dr dc fuel
    else 0

/-- `Game.checkWin` / `Bot.checkWin`: for each axis, count the placed cell
plus the contiguous same-mark runs in both directions; report a win when
some axis reaches 4. -/
def checkWin (b : Board) (row col player : Int) : Bool :=
  directions.any fun d =>
    decide (4 ≤ 1 + runLenAux b player row col d.1 d.2 3
        + runLenAux b player row col (-d.1) (-d.2) 3)

/-- `Game.isBoardFull`: the board is full when every column's top cell is
occupied. -/
def isBoardFull (b : Board) : Bool :=
  (List.finRange 7).all fun c => !(b 0 c == EMPTY)

/-! ## Game state and `Game.MakeMove` -/

structure Player where
  id : String
  username : String
  isBot : Bool
  deriving DecidableEq, Repr

structure Game where
  id : String
  board : Board
  currentTurn : Int
  status : String
  winner : Int
  player1 : Player
  player2 : Option Player
  isBot : Bool
  deriving DecidableEq

structure Move where
  gameId : String
  player : Int
  column : Int
  row : Int
  deriving DecidableEq, Repr

/-- The sentinel errors of `errors.go`. -/
inductive GameError where
  | gameNotActive
  | notYourTurn
  | invalidColumn
  | columnFull
  | gameNotFound
  | playerNotFound
  | gameFull
  deriving DecidableEq, Repr

instance {e b : Type} [DecidableEq e] [DecidableEq b] : DecidableEq (Except e b) := fun x y =>
  match x, y with
  | .error a, .error b =>
    if h : a = b then isTrue (congrArg Except.error h)
    else isFalse (fun hc => by injection hc with h'; exact h h')
  | .error _, .ok _ => isFalse (fun hc => Except.noConfusion hc)
  | .ok _, .error _ => isFalse (fun hc => Except.noConfusion hc)
  | .ok a, .ok b =>
    if h : a = b then isTrue (congrArg Except.ok h)
    else isFalse (fun hc => by injection hc with h'; exact h h')

/-- `NewGame`: fresh empty board, player 1 to move, waiting status.  The
UUID is passed in explicitly. -/
def NewGame (freshId : String) (player1 : Player) : Game :=
  { id := freshId
    board := emptyBoard
    currentTurn := PLAYER1
    status := "waiting"
    winner := 0
    player1 := player1
    player2 := none
    isBot := false }

/-- `Game.AddPlayer2`: fill slot B and start playing. -/
def AddPlayer2 (g : Game) (p : Player) : Game :=
  { g with player2 := some p, status := "playing", isBot := p.isBot }

/-- The descending scan `for r := ROWS - 1; r >= 0; r--` of `MakeMove`
that finds the lowest empty row of a column (first empty cell from the
bottom); `n` is the number of rows still to inspect, so the scan starts
at row `n - 1`. -/
def lowestEmptyAux (b : Board) (col : Fin 7) : Nat → Option (Fin 6)
  | 0 => none
  | n + 1 =>
    if h : n < 6 then
      if b ⟨n, h⟩ col = EMPTY then some ⟨n, h⟩ else lowestEmptyAux b col n
    else lowestEmptyAux b col n

def lowestEmpty (b : Board) (col : Fin 7) : Option (Fin 6) :=
  lowestEmptyAux b col 6

/-- `Game.MakeMove`: validate status, turn and column, gravity-drop the
piece, then check win / draw / flip the turn.  The Go method mutates the
receiver and returns `(move, error)`; here the updated game is returned
alongside, and every early `return nil, err` leaves the game exactly as
it was. -/
def MakeMove (g : Game) (column player : Int) : Except GameError Move × Game :=
  if g.status ≠ "playing" then (.error .gameNotActive, g)
  else if g.currentTurn ≠ player then (.error .notYourTurn, g)
  else if h : column < 0 ∨ 7 ≤ column then (.error .invalidColumn, g)
  else
    match lowestEmpty g.board ⟨column.toNat, by omega⟩ with
    | none => (.error .columnFull, g)
    | some row =>
      let b' := setCell g.board row ⟨column.toNat, by omega⟩ player
      let move : Move := { gameId := g.id, player := player, column := column, row := (row : Int) }
      if checkWin b' (row : Int) ((⟨column.toNat, by omega⟩ : Fin 7) : Int) player then
        (.ok move, { g with board := b', status := "finished", winner := player })
      else if isBoardFull b' then
        (.ok move, { g with board := b', status := "finished", winner := 0 })
      else
        (.ok move,
          { g with board := b',
                   currentTurn := if g.currentTurn = PLAYER1 then PLAYER2 else PLAYER1 })

/-- `Game.GetValidMoves`: columns whose top cell is empty, ascending. -/
def GetValidMoves (b : Board) : List (Fin 7) :=
  (List.finRange 7).filter fun c => b 0 c == EMPTY

/-! ## Spec-side reading of win detection

`specFourThrough` is written from the spec sentence "true iff four or more
consecutive cells of `mark` exist through (row,col) along any of the four
axes": some axis carries a block of four consecutive cells, all in range
and all holding `mark`, whose offsets `a, a+1, a+2, a+3` along the axis
include offset `0` (the placed cell).  A run of more than four such cells
through the cell always contains such a block of four, so the "or more" is
subsumed. -/

/-- A single in-range cell holding `mark`. -/
def specCell (b : Board) (r c mark : Int) : Bool :=
  inBounds r c && (getCell b r c == mark)

/-- Four consecutive same-mark cells through the placed cell, on one of
the four axes. -/
def specFourThrough (b : Board) (row col mark : Int) : Bool :=
  directions.any fun d =>
    [(-3 : Int), -2, -1, 0].any fun a =>
      [a, a + 1, a + 2, a + 3].all fun j =>
        specCell b (row + j * d.1) (col + j * d.2) mark

/-- Closed form of a single three-step scan arm. -/
def cnt3 (p1 p2 p3 : Bool) : Nat :=
  if p1 then if p2 then if p3 then 3 else 2 else 1 else 0

theorem runLenAux_succ (b : Board) (player r c dr dc : Int) (fuel : Nat) :
    runLenAux b player r c dr dc (fuel + 1) =
      if specCell b (r + dr) (c + dc) player then
        1 + runLenAux b player (r + dr) (c + dc) dr dc fuel
      else 0 := rfl

theorem runLenAux_three_plain (b : Board) (player r c dr dc : Int) :
    runLenAux b player r c dr dc 3 =
      cnt3 (specCell b (r + dr) (c + dc) player)
        (specCell b (r + dr + dr) (c + dc + dc) player)
        (specCell b (r + dr + dr + dr) (c + dc + dc + dc) player) := by
  rw [runLenAux_succ, runLenAux_succ, runLenAux_succ]
  cases h1 : specCell b (r + dr) (c + dc) player <;>
    cases h2 : specCell b (r + dr + dr) (c + dc + dc) player <;>
      cases h3 : specCell b (r + dr + dr + dr) (c + dc + dc + dc) player <;>
        simp [cnt3, runLenAux]

theorem runLenAux_three (b : Board) (player r c dr dc : Int) :
    runLenAux b player r c dr dc 3 =
      cnt3 (specCell b (r + 1 * dr) (c + 1 * dc) player)
        (specCell b (r + 2 * dr) (c + 2 * dc) player)
        (specCell b (r + 3 * dr) (c + 3 * dc) player) := by
  have e1 : r + 1 * dr = r + dr := by ring
  have e2 : c + 1 * dc = c + dc := by ring
  have e3 : r + 2 * dr = r + dr + dr := by ring
  have e4 : c + 2 * dc = c + dc + dc := by ring
  have e5 : r + 3 * dr = r + dr + dr + dr := by ring
  have e6 : c + 3 * dc = c + dc + dc + dc := by ring
  rw [e1, e2, e3, e4, e5, e6, runLenAux_three_plain]

theorem runLenAux_three_neg (b : Board) (player r c dr dc : Int) :
    runLenAux b player r c (-dr) (-dc) 3 =
      cnt3 (specCell b (r + (-1) * dr) (c + (-1) * dc) player)
        (specCell b (r + (-2) * dr) (c + (-2) * dc) player)
        (specCell b (r + (-3) * dr) (c + (-3) * dc) player) := by
  have e1 : r + (-1) * dr = r + -dr := by ring
  have e2 : c + (-1) * dc = c + -dc := by ring
  have e3 : r + (-2) * dr = r + -dr + -dr := by ring
  have e4 : c + (-2) * dc = c + -dc + -dc := by ring
  have e5 : r + (-3) * dr = r + -dr + -dr + -dr := by ring
  have e6 : c + (-3) * dc = c + -dc + -dc + -dc := by ring
  rw [e1, e2, e3, e4, e5, e6, runLenAux_three_plain]

theorem dir_window (b : Board) (mark row col dr dc : Int)
    (h : specCell b row col mark = true) :
    (decide (4 ≤ 1 + runLenAux b mark row col dr dc 3
        + runLenAux b mark row col (-dr) (-dc) 3)) =
      ([(-3 : Int), -2, -1, 0].any fun a =>
        [a, a + 1, a + 2, a + 3].all fun j =>
          specCell b (row + j * dr) (col + j * dc) mark) := by
  rw [runLenAux_three, runLenAux_three_neg]
  simp only [List.any_cons, List.any_nil, List.all_cons, List.all_nil,
    Bool.or_false, Bool.and_true]
  simp only [show ((-3 : Int) + 1 = -2) by norm_num,
    show ((-3 : Int) + 2 = -1) by norm_num,
    show ((-3 : Int) + 3 = 0) by norm_num,
    show ((-2 : Int) + 1 = -1) by norm_num,
    show ((-2 : Int) + 2 = 0) by norm_num,
    show ((-2 : Int) + 3 = 1) by norm_num,
    show ((-1 : Int) + 1 = 0) by norm_num,
    show ((-1 : Int) + 2 = 1) by norm_num,
    show ((-1 : Int) + 3 = 2) by norm_num,
    show ((0 : Int) + 1 = 1) by norm_num,
    show ((0 : Int) + 2 = 2) by norm_num,
    show ((0 : Int) + 3 = 3) by norm_num,
    zero_mul, add_zero, h]
  cases hq3 : specCell b (row + (-3) * dr) (col + (-3) * dc) mark <;>
    cases hq2 : specCell b (row + (-2) * dr) (col + (-2) * dc) mark <;>
      cases hq1 : specCell b (row + (-1) * dr) (col + (-1) * dc) mark <;>
        cases hp1 : specCell b (row + 1 * dr) (col + 1 * dc) mark <;>
          cases hp2 : specCell b (row + 2 * dr) (col + 2 * dc) mark <;>
            cases hp3 : specCell b (row + 3 * dr) (col + 3 * dc) mark <;>
              decide

/-- C3: `checkWin` agrees with the spec's four-in-a-row-through-the-cell
predicate (stated below as the final theorem). -/
theorem any_pointwise {α : Type} (l : List α) (f g : α → Bool)
    (h : ∀ x ∈ l, f x = g x) : l.any f = l.any g := by
  induction l with
  | nil => rfl
  | cons a t ih =>
    simp only [List.any_cons, h a (by simp)]
    rw [ih fun x hx => h x (by simp [hx])]

theorem checkWin_eq_specFourThrough (b : Board) (row col mark : Int)
    (h : specCell b row col mark = true) :
    checkWin b row col mark = specFourThrough b row col mark := by
  refine any_pointwise directions _ _ ?_
  intro d hd
  simp only [directions, List.mem_cons, List.not_mem_nil, or_false] at hd
  rcases hd with rfl | rfl | rfl | rfl
  · exact dir_window b mark row col 0 1 h
  · exact dir_window b mark row col 1 0 h
  · exact dir_window b mark row col 1 1 h
  · exact dir_window b mark row col 1 (-1) h

/-! ## Gravity invariant -/

/-- The spec's gravity invariant: a cell above an empty cell in the same
column is itself empty (row 0 is the top row, so "above" is the smaller
row index). -/
def gravityInv (b : Board) : Prop :=
  ∀ (r : Fin 6) (c : Fin 7) (h : r.val + 1 < 6), b ⟨r.val + 1, h⟩ c = EMPTY → b r c = EMPTY

theorem lowestEmptyAux_none (b : Board) (col : Fin 7) :
    ∀ n, lowestEmptyAux b col n = none → ∀ r : Fin 6, r.val < n → b r col ≠ EMPTY := by
  intro n
  induction n with
  | zero => intro _ r hr; omega
  | succ n ih =>
    intro hnone r hr
    rw [lowestEmptyAux] at hnone
    by_cases h6 : n < 6
    · rw [dif_pos h6] at hnone
      by_cases hemp : b ⟨n, h6⟩ col = EMPTY
      · rw [if_pos hemp] at hnone; exact absurd hnone (by simp)
      · rw [if_neg hemp] at hnone
        rcases Nat.lt_succ_iff_lt_or_eq.mp hr with hlt | heq
        · exact ih hnone r hlt
        · intro hc; exact hemp (by rwa [show (⟨n, h6⟩ : Fin 6) = r from Fin.ext heq.symm])
    · rw [dif_neg h6] at hnone
      rcases Nat.lt_succ_iff_lt_or_eq.mp hr with hlt | heq
      · exact ih hnone r hlt
      · exact absurd (heq ▸ r.isLt) h6

theorem lowestEmptyAux_some (b : Board) (col : Fin 7) :
    ∀ n row, lowestEmptyAux b col n = some row →
      row.val < n ∧ b row col = EMPTY ∧
        ∀ r' : Fin 6, row.val < r'.val → r'.val < n → b r' col ≠ EMPTY := by
  intro n
  induction n with
  | zero => intro row h; exact absurd h (by simp [lowestEmptyAux])
  | succ n ih =>
    intro row hsome
    rw [lowestEmptyAux] at hsome
    by_cases h6 : n < 6
    · rw [dif_pos h6] at hsome
      by_cases hemp : b ⟨n, h6⟩ col = EMPTY
      · rw [if_pos hemp] at hsome
        obtain rfl : (⟨n, h6⟩ : Fin 6) = row := by simpa using hsome
        refine ⟨Nat.lt_succ_self n, hemp, fun r' h1 h2 => ?_⟩
        have h1' : n < r'.val := h1
        omega
      · rw [if_neg hemp] at hsome
        obtain ⟨hlt, he, hmax⟩ := ih row hsome
        refine ⟨Nat.lt_succ_of_lt hlt, he, fun r' h1 h2 => ?_⟩
        rcases Nat.lt_succ_iff_lt_or_eq.mp h2 with h2' | h2'
        · exact hmax r' h1 h2'
        · intro hc; exact hemp (by rwa [show (⟨n, h6⟩ : Fin 6) = r' from Fin.ext h2'.symm])
    · rw [dif_neg h6] at hsome
      obtain ⟨hlt, he, hmax⟩ := ih row hsome
      refine ⟨Nat.lt_succ_of_lt hlt, he, fun r' h1 h2 => ?_⟩
      rcases Nat.lt_succ_iff_lt_or_eq.mp h2 with h2' | h2'
      · exact hmax r' h1 h2'
      · exact absurd (h2' ▸ r'.isLt) h6

theorem lowestEmpty_some (b : Board) (col : Fin 7) (row : Fin 6)
    (h : lowestEmpty b col = some row) :
    b row col = EMPTY ∧ ∀ r' : Fin 6, row.val < r'.val → b r' col ≠ EMPTY := by
  obtain ⟨_, he, hmax⟩ := lowestEmptyAux_some b col 6 row h
  exact ⟨he, fun r' h1 => hmax r' h1 r'.isLt⟩

/-- Dropping a piece at the row found by the descending scan preserves
gravity. -/
theorem gravityInv_setCell (b : Board) (col : Fin 7) (row : Fin 6) (v : Int)
    (hrow : lowestEmpty b col = some row) (hinv : gravityInv b) :
    gravityInv (setCell b row col v) := by
  obtain ⟨hemp, hmax⟩ := lowestEmpty_some b col row hrow
  intro r c h hbelow
  by_cases hc : c = col
  · rw [hc] at hbelow ⊢
    by_cases hr1 : r.val + 1 = row.val
    · -- the cell just below `r` is the placed cell
      have hrne : r ≠ row := by intro hc'; subst hc'; omega
      rw [setCell_other _ _ _ _ _ _ (by intro ⟨h1, _⟩; exact hrne h1)]
      have : b ⟨r.val + 1, h⟩ col = EMPTY := by
        have : (⟨r.val + 1, h⟩ : Fin 6) = row := Fin.ext hr1
        rw [this]; exact hemp
      exact hinv r col h this
    · have hb : b ⟨r.val + 1, h⟩ col = EMPTY := by
        have hne : ¬((⟨r.val + 1, h⟩ : Fin 6) = row ∧ col = col) := by
          intro ⟨h1, _⟩; exact hr1 (congrArg Fin.val h1)
        rwa [setCell_other _ _ _ _ _ _ hne] at hbelow
      have hlt : r.val + 1 < row.val := by
        rcases Nat.lt_trichotomy (r.val + 1) row.val with h' | h' | h'
        · exact h'
        · exact absurd h' hr1
        · exact absurd hb (hmax ⟨r.val + 1, h⟩ h')
      have hrne : r ≠ row := by intro hc'; subst hc'; omega
      rw [setCell_other _ _ _ _ _ _ (by intro ⟨h1, _⟩; exact hrne h1)]
      exact hinv r col h hb
  · have hb : b ⟨r.val + 1, h⟩ c = EMPTY := by
      rwa [setCell_other _ _ _ _ _ _ (by intro ⟨_, h2⟩; exact hc h2)] at hbelow
    rw [setCell_other _ _ _ _ _ _ (by intro ⟨_, h2⟩; exact hc h2)]
    exact hinv r c h hb

/-- `MakeMove` either leaves the board alone (every error path) or places
one piece at the row found by the descending scan. -/
theorem makeMove_board (g : Game) (column player : Int) :
    (MakeMove g column player).2.board = g.board ∨
    ∃ (col : Fin 7) (row : Fin 6), lowestEmpty g.board col = some row ∧
      (MakeMove g column player).2.board = setCell g.board row col player := by
  unfold MakeMove
  by_cases h1 : g.status ≠ "playing"
  · rw [if_pos h1]; left; rfl
  · rw [if_neg h1]
    by_cases h2 : g.currentTurn ≠ player
    · rw [if_pos h2]; left; rfl
    · rw [if_neg h2]
      by_cases h3 : column < 0 ∨ 7 ≤ column
      · rw [dif_pos h3]; left; rfl
      · rw [dif_neg h3]
        rcases hle : lowestEmpty g.board ⟨column.toNat, by omega⟩ with _ | row
        · left; rfl
        · right
          refine ⟨_, row, hle, ?_⟩
          simp only []
          split
          · rfl
          · split <;> rfl

/-- Apply a list of `(column, player)` requests through `MakeMove`; a
rejected move leaves the game untouched, so any state reachable by a
sequence of successful moves is `runMoves` of some list. -/
def runMoves (g : Game) (ms : List (Int × Int)) : Game :=
  ms.foldl (fun g m => (MakeMove g m.1 m.2).2) g

theorem gravityInv_makeMove (g : Game) (column player : Int)
    (hinv : gravityInv g.board) : gravityInv ((MakeMove g column player).2).board := by
  rcases makeMove_board g column player with h | ⟨col, row, hrow, h⟩
  · rwa [h]
  · rw [h]; exact gravityInv_setCell g.board col row player hrow hinv

theorem gravityInv_runMoves (g : Game) (ms : List (Int × Int))
    (hinv : gravityInv g.board) : gravityInv (runMoves g ms).board := by
  induction ms generalizing g with
  | nil => exact hinv
  | cons m t ih =>
    exact ih ((MakeMove g m.1 m.2).2) (gravityInv_makeMove g m.1 m.2 hinv)

theorem lowestEmpty_eq_some (b : Board) (col : Fin 7) (row : Fin 6)
    (hemp : b row col = EMPTY)
    (hmax : ∀ r' : Fin 6, row.val < r'.val → b r' col ≠ EMPTY) :
    lowestEmpty b col = some row := by
  rcases hle : lowestEmpty b col with _ | row'
  · exact absurd hemp (lowestEmptyAux_none b col 6 hle row row.isLt)
  · obtain ⟨hemp', hmax'⟩ := lowestEmpty_some b col row' hle
    rcases Nat.lt_trichotomy row.val row'.val with h | h | h
    · exact absurd hemp' (hmax row' h)
    · rw [show row' = row from Fin.ext h.symm]
    · exact absurd hemp (hmax' row h)

/-- C2: every game state reached from the initial empty 6×7 board of a
freshly paired playing game (`NewGame` then `AddPlayer2`, after which
moves succeed) through any sequence of `MakeMove` calls — successful
moves change the board, rejected ones leave it untouched — satisfies the
gravity invariant: a cell above an empty cell in the same column is
itself empty. -/
theorem claim_C2_gravity (freshId : String) (p1 p2 : Player) (ms : List (Int × Int)) :
    gravityInv (runMoves (AddPlayer2 (NewGame freshId p1) p2) ms).board := by
  apply gravityInv_runMoves
  intro r c h _
  rfl

/-- A board holding a horizontal four-in-a-row on the bottom row,
used to witness the win-detection claim. -/
def sampleBoardC3 : Board := fun r c => if r.val = 5 ∧ c.val < 4 then PLAYER1 else EMPTY

/-- C3: when the placed cell `(row, col)` is in range and holds `mark`,
`checkWin` returns true exactly when four consecutive cells of `mark` pass
through `(row, col)` along one of the four axes; in particular it is false
on any board with no such four-in-a-row through that cell. -/
theorem claim_C3_checkWin (b : Board) (row col mark : Int)
    (h : specCell b row col mark = true) :
    checkWin b row col mark = specFourThrough b row col mark :=
  checkWin_eq_specFourThrough b row col mark h

theorem claim_C3_checkWin_witness :
    specCell sampleBoardC3 5 2 PLAYER1 = true ∧
      checkWin sampleBoardC3 5 2 PLAYER1 = specFourThrough sampleBoardC3 5 2 PLAYER1 :=
  ⟨by decide, claim_C3_checkWin sampleBoardC3 5 2 PLAYER1 (by decide)⟩

/-! ## Inversion of `MakeMove` -/

/-- `MakeMove` either rejects and returns the game untouched, or succeeds. -/
theorem makeMove_cases (g : Game) (column player : Int) :
    (∃ e, MakeMove g column player = (.error e, g)) ∨
    (∃ mv g', MakeMove g column player = (.ok mv, g')) := by
  unfold MakeMove
  by_cases h1 : g.status ≠ "playing"
  · rw [if_pos h1]; exact .inl ⟨_, rfl⟩
  · rw [if_neg h1]
    by_cases h2 : g.currentTurn ≠ player
    · rw [if_pos h2]; exact .inl ⟨_, rfl⟩
    · rw [if_neg h2]
      by_cases h3 : column < 0 ∨ 7 ≤ column
      · rw [dif_pos h3]; exact .inl ⟨_, rfl⟩
      · rw [dif_neg h3]
        rcases hle : lowestEmpty g.board ⟨column.toNat, by omega⟩ with _ | row
        · exact .inl ⟨_, rfl⟩
        · right
          simp only []
          split
          · exact ⟨_, _, rfl⟩
          · split
            · exact ⟨_, _, rfl⟩
            · exact ⟨_, _, rfl⟩

/-- Full inversion of a successful `MakeMove`. -/
theorem makeMove_ok_inv (g : Game) (column player : Int) (mv : Move) (g' : Game)
    (h : MakeMove g column player = (.ok mv, g')) :
    g.status = "playing" ∧ g.currentTurn = player ∧
    ∃ (col : Fin 7) (row : Fin 6), (col : Int) = column ∧
      lowestEmpty g.board col = some row ∧
      mv = { gameId := g.id, player := player, column := column, row := (row : Int) } ∧
      g'.board = setCell g.board row col player ∧
      ((checkWin g'.board (row : Int) (col : Int) player = true ∧
          g'.status = "finished" ∧ g'.winner = player ∧ g'.currentTurn = g.currentTurn) ∨
       (checkWin g'.board (row : Int) (col : Int) player = false ∧
          isBoardFull g'.board = true ∧
          g'.status = "finished" ∧ g'.winner = 0 ∧ g'.currentTurn = g.currentTurn) ∨
       (checkWin g'.board (row : Int) (col : Int) player = false ∧
          isBoardFull g'.board = false ∧
          g'.status = g.status ∧ g'.winner = g.winner ∧
          g'.currentTurn = (if g.currentTurn = PLAYER1 then PLAYER2 else PLAYER1))) := by
  unfold MakeMove at h
  by_cases h1 : g.status ≠ "playing"
  · rw [if_pos h1] at h; simp at h
  · rw [if_neg h1] at h
    by_cases h2 : g.currentTurn ≠ player
    · rw [if_pos h2] at h; simp at h
    · rw [if_neg h2] at h
      by_cases h3 : column < 0 ∨ 7 ≤ column
      · rw [dif_pos h3] at h; simp at h
      · rw [dif_neg h3] at h
        rcases hle : lowestEmpty g.board ⟨column.toNat, by omega⟩ with _ | row
        · rw [hle] at h; simp at h
        · rw [hle] at h
          simp only [] at h
          refine ⟨not_not.mp h1, not_not.mp h2, ⟨column.toNat, by omega⟩, row, ?_, hle, ?_⟩
          · have hcoe : ((⟨column.toNat, by omega⟩ : Fin 7) : Int) = (column.toNat : Int) := rfl
            rw [hcoe]; omega
          · split at h
            · rename_i hw
              rw [Prod.mk.injEq] at h
              obtain ⟨hmv, hg'⟩ := h
              subst hg'
              injection hmv with hmv
              subst hmv
              exact ⟨rfl, rfl, .inl ⟨hw, rfl, rfl, rfl⟩⟩
            · split at h
              · rename_i hw hf
                rw [Prod.mk.injEq] at h
                obtain ⟨hmv, hg'⟩ := h
                subst hg'
                injection hmv with hmv
                subst hmv
                exact ⟨rfl, rfl, .inr (.inl ⟨by simpa using hw, hf, rfl, rfl, rfl⟩)⟩
              · rename_i hw hf
                rw [Prod.mk.injEq] at h
                obtain ⟨hmv, hg'⟩ := h
                subst hg'
                injection hmv with hmv
                subst hmv
                exact ⟨rfl, rfl, .inr (.inr ⟨by simpa using hw, by simpa using hf, rfl, rfl, rfl⟩)⟩

theorem lowestEmpty_eq_none (b : Board) (col : Fin 7)
    (h : ∀ r : Fin 6, b r col ≠ EMPTY) : lowestEmpty b col = none := by
  rcases hle : lowestEmpty b col with _ | row
  · rfl
  · exact absurd (lowestEmpty_some b col row hle).1 (h row)

/-- C1: for the mover on an active game, `MakeMove` rejects an
out-of-range column with `InvalidColumn`, rejects a column with no empty
cell with `ColumnFull`, and otherwise drops the mover's mark at the
lowest empty row of the column (the largest empty row index) and returns
a `Move` recording that row and column; and every error path returns the
game state completely unchanged. -/
theorem claim_C1_makeMove (g : Game) (column player : Int) :
    (g.status = "playing" → g.currentTurn = player →
      (¬(0 ≤ column ∧ column < 7) →
          MakeMove g column player = (.error .invalidColumn, g)) ∧
      (∀ col : Fin 7, (col : Int) = column →
        ((∀ r : Fin 6, g.board r col ≠ EMPTY) →
            MakeMove g column player = (.error .columnFull, g)) ∧
        (∀ row : Fin 6, g.board row col = EMPTY →
            (∀ r' : Fin 6, row.val < r'.val → g.board r' col ≠ EMPTY) →
            (MakeMove g column player).1 =
              .ok { gameId := g.id, player := player, column := column, row := (row : Int) } ∧
            (MakeMove g column player).2.board = setCell g.board row col player))) ∧
    (∀ e, (MakeMove g column player).1 = Except.error e →
        (MakeMove g column player).2 = g) := by
  constructor
  · intro hs ht
    constructor
    · intro hc
      unfold MakeMove
      rw [if_neg (by simp [hs]), if_neg (by simp [ht]), dif_pos (by omega)]
    · intro col hcol
      have hc0 : ¬(column < 0 ∨ 7 ≤ column) := by
        have h7 : (col : Int) < 7 := by exact_mod_cast col.isLt
        omega
      constructor
      · intro hfull
        unfold MakeMove
        rw [if_neg (by simp [hs]), if_neg (by simp [ht]), dif_neg hc0]
        rw [show (⟨column.toNat, by omega⟩ : Fin 7) = col from Fin.ext (by show column.toNat = col.val; omega)]
        rw [lowestEmpty_eq_none g.board col hfull]
      · intro row hemp hmax
        have hle := lowestEmpty_eq_some g.board col row hemp hmax
        unfold MakeMove
        rw [if_neg (by simp [hs]), if_neg (by simp [ht]), dif_neg hc0]
        rw [show (⟨column.toNat, by omega⟩ : Fin 7) = col from Fin.ext (by show column.toNat = col.val; omega)]
        rw [hle]
        simp only []
        split
        · exact ⟨rfl, rfl⟩
        · split
          · exact ⟨rfl, rfl⟩
          · exact ⟨rfl, rfl⟩
  · intro e he
    rcases makeMove_cases g column player with ⟨e', heq⟩ | ⟨mv, g', heq⟩
    · rw [heq]
    · rw [heq] at he; simp at he

/-- A two-player game in playing state on an empty board, slot A to
move. -/
def sampleGameC1 : Game :=
  AddPlayer2 (NewGame "game1" { id := "alice", username := "alice", isBot := false })
    { id := "bob", username := "bob", isBot := false }

theorem claim_C1_makeMove_witness :
    MakeMove sampleGameC1 9 1 = (.error .invalidColumn, sampleGameC1) :=
  ((claim_C1_makeMove sampleGameC1 9 1).1 rfl rfl).1 (by decide)

/-- C4: a successful `MakeMove` on a playing game finishes the game with
the mover as winner when the placed piece completes four-in-a-row,
finishes it as a draw (winner 0) when the move fills the board, and
otherwise keeps it playing and flips the turn to the other slot. -/
theorem claim_C4_finalize (g : Game) (column player : Int) (mv : Move) (g' : Game)
    (hm : MakeMove g column player = (.ok mv, g')) :
    (checkWin g'.board mv.row mv.column player = true →
        g'.status = "finished" ∧ g'.winner = player) ∧
    (checkWin g'.board mv.row mv.column player = false →
        isBoardFull g'.board = true →
        g'.status = "finished" ∧ g'.winner = 0) ∧
    (checkWin g'.board mv.row mv.column player = false →
        isBoardFull g'.board = false →
        g'.status = "playing" ∧
        g'.currentTurn = (if player = PLAYER1 then PLAYER2 else PLAYER1)) := by
  obtain ⟨hs, ht, col, row, hcol, hle, hmv, hboard, hdisj⟩ :=
    makeMove_ok_inv g column player mv g' hm
  have hrow' : mv.row = (row : Int) := by rw [hmv]
  have hcolumn : mv.column = (col : Int) := by rw [hmv, ← hcol]
  rw [hrow', hcolumn]
  rcases hdisj with ⟨hw, h1, h2, _⟩ | ⟨hw, hf, h1, h2, _⟩ | ⟨hw, hf, h1, h2, h3⟩
  · refine ⟨fun _ => ⟨h1, h2⟩, fun hfalse _ => ?_, fun hfalse _ => ?_⟩ <;>
      (rw [hw] at hfalse; exact absurd hfalse (by simp))
  · refine ⟨fun htrue => ?_, fun _ _ => ⟨h1, h2⟩, fun _ hfull => ?_⟩
    · rw [hw] at htrue; exact absurd htrue (by simp)
    · rw [hf] at hfull; exact absurd hfull (by simp)
  · refine ⟨fun htrue => ?_, fun _ hfull => ?_, fun _ _ => ⟨by rw [h1, hs], by rw [h3, ht]⟩⟩
    · rw [hw] at htrue; exact absurd htrue (by simp)
    · rw [hf] at hfull; exact absurd hfull (by simp)

def sampleGameC4 : Game :=
  AddPlayer2 (NewGame "game4" { id := "alice", username := "alice", isBot := false })
    { id := "bob", username := "bob", isBot := false }

def mvC4 : Move := { gameId := "game4", player := 1, column := 3, row := 5 }

def gameC4After : Game := (MakeMove sampleGameC4 3 1).2

theorem claim_C4_finalize_witness :
    gameC4After.status = "playing" ∧
      gameC4After.currentTurn = (if (1 : Int) = PLAYER1 then PLAYER2 else PLAYER1) :=
  (claim_C4_finalize sampleGameC4 3 1 mvC4 gameC4After (by decide)).2.2
    (by decide) (by decide)

/-! ## Session registry (`Manager`)

The Go `Manager` holds a `map[string]*Game`, a single waiting-player
slot, the in-memory leaderboard and the consecutive-win counters.  Maps
are modelled as association lists; `uuid.New()` is passed in as the
`freshId` parameter; Go durations (`float64` seconds) are modelled as
rationals.  The spawned `startBotTimeout` goroutine is modelled by a
Boolean "scheduled" flag in the result of `FindOrCreateGame`. -/

structure PlayerStats where
  username : String
  wins : Int
  gamesPlayed : Int
  winRate : Rat
  bestTime : Rat
  totalTime : Rat
  deriving DecidableEq, Repr

structure Manager where
  games : List (String × Game)
  waitingPlayer : Option Player
  leaderboard : List (String × PlayerStats)
  playerWins : List (String × Int)
  deriving DecidableEq

/-- In-place update of a map entry (`m.games[id] = g` on an existing
key). -/
def updateEntry {α : Type} (m : List (String × α)) (k : String) (v : α) :
    List (String × α) :=
  m.map fun p => if p.1 == k then (k, v) else p

/-- Write to a Go map, inserting the key when absent (Go zero-value
semantics). -/
def setPW (pw : List (String × Int)) (k : String) (v : Int) : List (String × Int) :=
  match List.lookup k pw with
  | some _ => updateEntry pw k v
  | none => (k, v) :: pw

/-- `strings.TrimSpace`, modelled on character lists so that it
evaluates by kernel reduction. -/
def trimName (s : String) : String :=
  (((s.toList.dropWhile Char.isWhitespace).reverse.dropWhile
      Char.isWhitespace).reverse).asString

/-- The name processing of `FindOrCreateGame`: trim whitespace and cut
to at most 20 characters. -/
def processName (raw : String) : String :=
  let t := trimName raw
  if 20 < t.length then (t.toList.take 20).asString else t

/-- The matchmaking scan of `FindOrCreateGame`: the first game in the
registry that is waiting and owned by `uname`. -/
def findWaitingGameFor (games : List (String × Game)) (uname : String) :
    Option (String × Game) :=
  games.find? fun p => p.2.status == "waiting" && p.2.player1.username == uname

/-- `Manager.FindOrCreateGame`.  Result:
`((game?, player?, created_waiting), manager', scheduledBotTimeout)`.
When the same-name rejoin scan fails, Go clears the waiting slot and
falls through to game creation, which overwrites the slot anyway, so
both fall-through paths are the creation path. -/
def FindOrCreateGame (m : Manager) (rawName freshId : String) :
    (Option Game × Option Player × Bool) × Manager × Bool :=
  if (trimName rawName).length = 0 then ((none, none, false), m, false)
  else
    let username := processName rawName
    let player : Player := { id := username, username := username, isBot := false }
    let createNew : (Option Game × Option Player × Bool) × Manager × Bool :=
      ((some (NewGame freshId player), some player, true),
        { m with games := (freshId, NewGame freshId player) :: m.games,
                 waitingPlayer := some player }, true)
    match m.waitingPlayer with
    | some wp =>
      if wp.username ≠ username then
        match findWaitingGameFor m.games wp.username with
        | some (gid, wg) =>
          ((some (AddPlayer2 wg player), some player, false),
            { m with games := updateEntry m.games gid (AddPlayer2 wg player),
                     waitingPlayer := none }, false)
        | none => createNew
      else
        match findWaitingGameFor m.games username with
        | some (_, wg) => ((some wg, some player, true), m, false)
        | none => createNew
    | none => createNew

/-- `Manager.JoinSpecificGame`. -/
def JoinSpecificGame (m : Manager) (username gameID : String) :
    Except GameError (Game × Player) × Manager :=
  let player : Player := { id := username, username := username, isBot := false }
  match List.lookup gameID m.games with
  | none => (.error .gameNotFound, m)
  | some game =>
    if game.status ≠ "waiting" then (.error .gameNotActive, m)
    else if game.player1.username = username then (.ok (game, player), m)
    else if game.player2.isSome then (.error .gameFull, m)
    else
      (.ok (AddPlayer2 game player, player),
        { m with games := updateEntry m.games gameID (AddPlayer2 game player),
                 waitingPlayer :=
                   match m.waitingPlayer with
                   | some wp =>
                     if wp.username = game.player1.username then none else m.waitingPlayer
                   | none => none })

/-- One player's share of `Manager.updateLeaderboard` (`won` stands for
`game.Winner == PLAYERk` for the player's own slot). -/
def updatePlayerStats (lb : List (String × PlayerStats)) (pw : List (String × Int))
    (uname : String) (won : Bool) (duration : Rat) :
    List (String × PlayerStats) × List (String × Int) :=
  match List.lookup uname lb with
  | some stats0 =>
    let stats1 : PlayerStats :=
      { stats0 with gamesPlayed := stats0.gamesPlayed + 1,
                    totalTime := stats0.totalTime + duration }
    let stats2 := if won then { stats1 with wins := stats1.wins + 1 } else stats1
    let pw' :=
      if won then setPW pw uname ((List.lookup uname pw).getD 0 + 1)
      else setPW pw uname 0
    let stats3 :=
      if stats2.bestTime = 0 ∨ (won ∧ duration < stats2.bestTime) then
        { stats2 with bestTime := duration }
      else stats2
    let stats4 :=
      { stats3 with winRate := (stats3.wins : Rat) / (stats3.gamesPlayed : Rat) * 100 }
    (updateEntry lb uname stats4, pw')
  | none =>
    let stats : PlayerStats :=
      if won then
        { username := uname, wins := 1, gamesPlayed := 1, winRate := 0,
          bestTime := duration, totalTime := duration }
      else
        { username := uname, wins := 0, gamesPlayed := 1, winRate := 0,
          bestTime := 0, totalTime := duration }
    let pw' := if won then setPW pw uname 1 else setPW pw uname 0
    let stats' :=
      { stats with winRate := (stats.wins : Rat) / (stats.gamesPlayed : Rat) * 100 }
    ((uname, stats') :: lb, pw')

/-- `Manager.updateLeaderboard`: player 1 always, player 2 only when
human. -/
def updateLeaderboard (m : Manager) (game : Game) (duration : Rat) : Manager :=
  let r1 := updatePlayerStats m.leaderboard m.playerWins game.player1.username
    (decide (game.winner = PLAYER1)) duration
  match game.player2 with
  | some p2 =>
    if !p2.isBot then
      let r2 := updatePlayerStats r1.1 r1.2 p2.username
        (decide (game.winner = PLAYER2)) duration
      { m with leaderboard := r2.1, playerWins := r2.2 }
    else { m with leaderboard := r1.1, playerWins := r1.2 }
  | none => { m with leaderboard := r1.1, playerWins := r1.2 }

def emptyManager : Manager :=
  { games := [], waitingPlayer := none, leaderboard := [], playerWins := [] }

theorem processName_length (raw : String) : (processName raw).length ≤ 20 ∨
    (processName raw).length = (trimName raw).length := by
  unfold processName
  by_cases h : 20 < (trimName raw).length
  · left
    rw [if_pos h]
    simp
  · right
    rw [if_neg h]

/-- C5: `FindOrCreateGame` trims and truncates the display name to at
most 20 characters; a different-named queued player with an existing
waiting game gets paired (game moves to playing via `AddPlayer2`, queue
emptied, `created_waiting = false`); a same-named queued player gets
their existing waiting game back idempotently with
`created_waiting = true` and an unchanged registry; with an empty queue a
new waiting game is created with the joiner in slot A as the sole queued
player, the pairing-timeout action is scheduled, and
`created_waiting = true`. -/
theorem claim_C5_findOrCreate (m : Manager) (raw freshId : String)
    (hname : (trimName raw).length ≠ 0) :
    ((processName raw).length ≤ 20) ∧
    (∀ wp, m.waitingPlayer = some wp → wp.username ≠ processName raw →
      ∀ gid wg, findWaitingGameFor m.games wp.username = some (gid, wg) →
        FindOrCreateGame m raw freshId =
          ((some (AddPlayer2 wg
              { id := processName raw, username := processName raw, isBot := false }),
            some { id := processName raw, username := processName raw, isBot := false },
            false),
            { m with games := updateEntry m.games gid (AddPlayer2 wg
                { id := processName raw, username := processName raw, isBot := false }),
                     waitingPlayer := none }, false)) ∧
    (∀ wp, m.waitingPlayer = some wp → wp.username = processName raw →
      ∀ gid wg, findWaitingGameFor m.games (processName raw) = some (gid, wg) →
        FindOrCreateGame m raw freshId =
          ((some wg,
            some { id := processName raw, username := processName raw, isBot := false },
            true), m, false)) ∧
    (m.waitingPlayer = none →
      FindOrCreateGame m raw freshId =
        ((some (NewGame freshId
            { id := processName raw, username := processName raw, isBot := false }),
          some { id := processName raw, username := processName raw, isBot := false },
          true),
          { m with games := (freshId, NewGame freshId
              { id := processName raw, username := processName raw, isBot := false })
                :: m.games,
                   waitingPlayer :=
                     some { id := processName raw, username := processName raw,
                            isBot := false } }, true)) := by
  refine ⟨?_, ?_, ?_, ?_⟩
  · rcases processName_length raw with h | h
    · exact h
    · rw [h]
      unfold processName at h
      by_cases h20 : 20 < (trimName raw).length
      · rw [if_pos h20] at h
        simp at h
        omega
      · omega
  · intro wp hw hne gid wg hfind
    unfold FindOrCreateGame
    rw [if_neg hname, hw]
    simp only []
    rw [if_pos hne, hfind]
  · intro wp hw heq gid wg hfind
    unfold FindOrCreateGame
    rw [if_neg hname, hw]
    simp only []
    rw [if_neg (by simpa using heq), hfind]
  · intro hw
    unfold FindOrCreateGame
    rw [if_neg hname, hw]

def bobPlayer : Player := { id := "bob", username := "bob", isBot := false }

theorem claim_C5_findOrCreate_witness :
    FindOrCreateGame emptyManager "bob" "g1" =
      ((some (NewGame "g1" bobPlayer), some bobPlayer, true),
        { emptyManager with games := [("g1", NewGame "g1" bobPlayer)],
                            waitingPlayer := some bobPlayer }, true) :=
  (claim_C5_findOrCreate emptyManager "bob" "g1" (by decide)).2.2.2 rfl

/-- C10: a display name that trims to the empty string is rejected: no
game, no player, `created_waiting = false`, no timeout scheduled, and the
registry (games map and queue slot) is returned unchanged. -/
theorem claim_C10_emptyName (m : Manager) (raw freshId : String)
    (h : (trimName raw).length = 0) :
    FindOrCreateGame m raw freshId = ((none, none, false), m, false) := by
  unfold FindOrCreateGame
  rw [if_pos h]

theorem claim_C10_emptyName_witness :
    FindOrCreateGame emptyManager "   " "g9" = ((none, none, false), emptyManager, false) :=
  claim_C10_emptyName emptyManager "   " "g9" (by decide)

/-- The player value object built from a display name. -/
def mkPlayer (username : String) : Player :=
  { id := username, username := username, isBot := false }

/-! ## C6: `JoinSpecificGame` check order -/

def aliceC6 : Player := { id := "alice", username := "alice", isBot := false }

/-- A game already in playing state whose slot A is "alice". -/
def gameC6 : Game :=
  AddPlayer2 (NewGame "g1" aliceC6) { id := "bob", username := "bob", isBot := false }

def mgrC6 : Manager :=
  { games := [("g1", gameC6)], waitingPlayer := none, leaderboard := [], playerWins := [] }

/-- C6 counterexample: the registered game "g1" exists, its slot-A name
matches the joiner "alice", yet `JoinSpecificGame` returns the
NotWaiting error (`gameNotActive`) instead of the idempotent success the
claim's check order ("name matches slot A" before "status is not
waiting") prescribes: the code tests the status first. -/
theorem claim_C6_counterexample :
    List.lookup "g1" mgrC6.games = some gameC6 ∧
      gameC6.player1.username = "alice" ∧ gameC6.status ≠ "waiting" ∧
      JoinSpecificGame mgrC6 "alice" "g1" = (.error .gameNotActive, mgrC6) := by
  refine ⟨by decide, by decide, by decide, by decide⟩

/-- C6 (amended): `JoinSpecificGame` checks, in this order: NotFound if
no game with the id exists; NotWaiting (`gameNotActive`) if the game's
status is not waiting; idempotent success if the name matches slot A;
Full if slot B is occupied; otherwise it fills slot B, clears the queue
slot if it referenced this game's slot-A player, and moves the game to
playing via `AddPlayer2`. -/
theorem claim_C6_joinSpecific (m : Manager) (username gameID : String) :
    (List.lookup gameID m.games = none →
        JoinSpecificGame m username gameID = (.error .gameNotFound, m)) ∧
    (∀ game, List.lookup gameID m.games = some game →
      (game.status ≠ "waiting" →
          JoinSpecificGame m username gameID = (.error .gameNotActive, m)) ∧
      (game.status = "waiting" → game.player1.username = username →
          JoinSpecificGame m username gameID = (.ok (game, mkPlayer username), m)) ∧
      (game.status = "waiting" → game.player1.username ≠ username →
        (∀ p2, game.player2 = some p2 →
            JoinSpecificGame m username gameID = (.error .gameFull, m)) ∧
        (game.player2 = none →
          JoinSpecificGame m username gameID =
            (.ok (AddPlayer2 game (mkPlayer username), mkPlayer username),
              { m with
                  games := updateEntry m.games gameID (AddPlayer2 game (mkPlayer username)),
                  waitingPlayer :=
                    match m.waitingPlayer with
                    | some wp =>
                      if wp.username = game.player1.username then none
                      else m.waitingPlayer
                    | none => none })))) := by
  constructor
  · intro hnone
    unfold JoinSpecificGame
    rw [hnone]
  · intro game hsome
    refine ⟨?_, ?_, ?_⟩
    · intro hst
      unfold JoinSpecificGame
      rw [hsome]
      simp only []
      rw [if_pos hst]
    · intro hst hp1
      unfold JoinSpecificGame
      rw [hsome]
      simp only []
      rw [if_neg (by simp [hst]), if_pos hp1]
      rfl
    · intro hst hp1
      constructor
      · intro p2 hp2
        unfold JoinSpecificGame
        rw [hsome]
        simp only []
        rw [if_neg (by simp [hst]), if_neg hp1, if_pos (by simp [hp2])]
      · intro hp2
        unfold JoinSpecificGame
        rw [hsome]
        simp only []
        rw [if_neg (by simp [hst]), if_neg hp1, if_neg (by simp [hp2])]
        rfl

def waitMgrC6 : Manager :=
  { games := [("g2", NewGame "g2" aliceC6)], waitingPlayer := some aliceC6,
    leaderboard := [], playerWins := [] }

theorem claim_C6_joinSpecific_witness :
    JoinSpecificGame waitMgrC6 "bob" "g2" =
      (.ok (AddPlayer2 (NewGame "g2" aliceC6) (mkPlayer "bob"), mkPlayer "bob"),
        { waitMgrC6 with
            games := updateEntry waitMgrC6.games "g2"
              (AddPlayer2 (NewGame "g2" aliceC6) (mkPlayer "bob")),
            waitingPlayer := none }) := by
  have h := (((claim_C6_joinSpecific waitMgrC6 "bob" "g2").2
      (NewGame "g2" aliceC6) (by decide)).2.2 (by decide) (by decide)).2 rfl
  exact h

/-! ## C7: leaderboard best time -/

/-- A finished bot game that "alice" lost (the bot, slot B, won). -/
def lossGameC7 : Game :=
  { id := "g7", board := emptyBoard, currentTurn := PLAYER2, status := "finished",
    winner := PLAYER2, player1 := aliceC6,
    player2 := some { id := "bot", username := "Smart Bot", isBot := true },
    isBot := true }

/-- The registry after "alice" loses twice (durations 5 and 7 seconds). -/
def mgrC7 : Manager :=
  updateLeaderboard (updateLeaderboard emptyManager lossGameC7 5) lossGameC7 7

/-- C7: the code violates the claim.  After two lost games, "alice" has
zero wins but `updateLeaderboard` has set her best time to the second
game's duration (7), because the `stats.BestTime == 0` disjunct fires on
a loss; so a best time can be positive with no recorded win. -/
theorem claim_C7_bestTime_bug :
    (List.lookup "alice" mgrC7.leaderboard).map (fun s => (s.wins, s.bestTime)) =
      some (0, 7) := by decide

/-! ## Heuristic bot (`bot.go`)

`Bot.checkWin` is byte-for-byte the same function as `Game.checkWin`, so
the shared `checkWin` above models both.  The random draws
`rand.Float64() < mistakeChance`, `rand.Float64() > mistakeChance` and
`rand.Intn(n)` are modelled by the oracle parameters `mistakeDraw`,
`blockDraw` and `fallbackIdx % n`; the float value `mistakeChance`
itself only feeds those draws, so it needs no numeric model. -/

/-- The ascending column scan `for col := 0; col < COLS; col++`. -/
def colsI : List Int := [0, 1, 2, 3, 4, 5, 6]

/-- `Bot.canDropPiece`. -/
def canDropPiece (b : Board) (col : Int) : Bool :=
  decide (0 ≤ col) && decide (col < 7) && (getCell b 0 col == EMPTY)

/-- The descending scan of `Bot.dropPiece`; returns the mutated board and
the landing row, or the untouched board and -1 when the column is full. -/
def dropPieceAux (b : Board) (col : Fin 7) (player : Int) : Nat → Board × Int
  | 0 => (b, -1)
  | n + 1 =>
    if h : n < 6 then
      if b ⟨n, h⟩ col = EMPTY then (setCell b ⟨n, h⟩ col player, (n : Int))
      else dropPieceAux b col player n
    else dropPieceAux b col player n

/-- `Bot.dropPiece` (callers always bounds-check the column first). -/
def dropPiece (b : Board) (col player : Int) : Board × Int :=
  if h : 0 ≤ col ∧ col < 7 then dropPieceAux b ⟨col.toNat, by omega⟩ player 6
  else (b, -1)

/-- `Bot.getValidMoves`. -/
def getValidMoves (b : Board) : List Int :=
  colsI.filter (canDropPiece b)

/-- One arm of the `evaluateDirection` scan: `(count increment, open-end
increment)`; the scan stops at the border, at an opposing piece, or at
the first empty cell (which counts one open end). -/
def scanDirAux (b : Board) (player : Int) (r c dr dc : Int) : Nat → Nat × Nat
  | 0 => (0, 0)
  | fuel + 1 =>
    if inBounds (r + dr) (c + dc) then
      if getCell b (r + dr) (c + dc) == player then
        let rest := scanDirAux b player (r + dr) (c + dc) dr dc fuel
        (rest.1 + 1, rest.2)
      else if getCell b (r + dr) (c + dc) == EMPTY then (0, 1)
      else (0, 0)
    else (0, 0)

/-- `Bot.evaluateDirection`. -/
def evaluateDirection (b : Board) (row col dr dc player : Int) : Int :=
  let pos := scanDirAux b player row col dr dc 3
  let neg := scanDirAux b player row col (-dr) (-dc) 3
  let count := 1 + pos.1 + neg.1
  let openEnds := pos.2 + neg.2
  if 4 ≤ count then 1000
  else if count = 3 ∧ 0 < openEnds then 50
  else if count = 2 ∧ 0 < openEnds then 10
  else if count = 1 ∧ 1 < openEnds then 1
  else 0

/-- `Bot.evaluatePosition`: sum over the four axes plus the center-column
bonus. -/
def evaluatePosition (b : Board) (row col player : Int) : Int :=
  (directions.foldl (fun acc d => acc + evaluateDirection b row col d.1 d.2 player) 0) +
    (if col = 3 then 3 else if col = 2 ∨ col = 4 then 2 else 0)

/-- `Bot.evaluateFuturePositions`: unweighted average (Go integer
division) of the scores of all legal replies, recursing on `depth`. -/
def evaluateFuturePositions (b : Board) (player : Int) : Nat → Int
  | 0 => 0
  | depth + 1 =>
    let validMoves := getValidMoves b
    let totalScore := validMoves.foldl
      (fun acc col =>
        let dropped := dropPiece b col player
        acc + (evaluatePosition dropped.1 dropped.2 col player +
          evaluateFuturePositions dropped.1 player depth))
      0
    if 0 < validMoves.length then Int.tdiv totalScore validMoves.length else 0

/-- The candidate score of the `findBestStrategicMove` loop body:
positional evaluation plus depth-limited look-ahead keyed to the
difficulty level. -/
def stratScore (b : Board) (player difficultyLevel col : Int) : Int :=
  let dropped := dropPiece b col player
  let base := evaluatePosition dropped.1 dropped.2 col player
  if 3 ≤ difficultyLevel then base + evaluateFuturePositions dropped.1 player 2
  else if 1 ≤ difficultyLevel then base + evaluateFuturePositions dropped.1 player 1
  else base

/-- One iteration of the `findBestStrategicMove` loop over
`(bestScore, bestCol)`. -/
def stratStep (b : Board) (player difficultyLevel : Int) (best : Int × Int)
    (col : Int) : Int × Int :=
  if canDropPiece b col then
    if best.1 < stratScore b player difficultyLevel col then
      (stratScore b player difficultyLevel col, col)
    else best
  else best

/-- `Bot.findBestStrategicMove`: best-scoring legal column against an
initial best score of -1. -/
def findBestStrategicMove (b : Board) (player difficultyLevel : Int) : Int :=
  (colsI.foldl (stratStep b player difficultyLevel) ((-1 : Int), (-1 : Int))).2

/-- Simulate a drop of `player` in `col` and test an immediate win (the
body of the step-1 and step-2 loops of `GetBestMoveWithDifficulty`). -/
def winsImmediately (b : Board) (player col : Int) : Bool :=
  canDropPiece b col &&
    (let dropped := dropPiece b col player
     checkWin dropped.1 dropped.2 col player)

/-- `Bot.makeSuboptimalMove`: prefer edge columns, else a random legal
column. -/
def makeSuboptimalMove (b : Board) (_player : Int) (fallbackIdx : Nat) : Int :=
  let validMoves := getValidMoves b
  if validMoves.length = 0 then 0
  else
    match [(0 : Int), 6, 1, 5].find? (canDropPiece b) with
    | some col => col
    | none => validMoves.getD (fallbackIdx % validMoves.length) 0

/-- `Bot.GetBestMoveWithDifficulty`: difficulty clamp, mistake branch,
immediate win, block, strategic move, center preference, random
fallback. -/
def GetBestMoveWithDifficulty (b : Board) (player playerWins : Int)
    (mistakeDraw blockDraw : Bool) (fallbackIdx : Nat) : Int :=
  let difficultyLevel := if 5 < playerWins then 5 else playerWins
  if difficultyLevel < 3 ∧ mistakeDraw = true then makeSuboptimalMove b player fallbackIdx
  else
    match colsI.find? (winsImmediately b player) with
    | some col => col
    | none =>
      let opponent := if player = PLAYER1 then PLAYER2 else PLAYER1
      let blockingMoves := colsI.filter (winsImmediately b opponent)
      if blockingMoves ≠ [] ∧ (2 ≤ difficultyLevel ∨ blockDraw = true) then
        blockingMoves.getD 0 0
      else
        let bestCol := findBestStrategicMove b player difficultyLevel
        if bestCol ≠ -1 then bestCol
        else
          let fallback :=
            let validMoves := getValidMoves b
            if 0 < validMoves.length then
              validMoves.getD (fallbackIdx % validMoves.length) 0
            else 0
          if 1 ≤ difficultyLevel then
            match [(3 : Int), 2, 4, 1, 5, 0, 6].find? (canDropPiece b) with
            | some col => col
            | none => fallback
          else fallback

/-! ## Nonnegativity of the bot's scoring -/

theorem evaluateDirection_nonneg (b : Board) (row col dr dc player : Int) :
    0 ≤ evaluateDirection b row col dr dc player := by
  unfold evaluateDirection
  simp only []
  split
  · norm_num
  · split
    · norm_num
    · split
      · norm_num
      · split <;> norm_num

theorem foldl_add_nonneg {α : Type} (f : α → Int) :
    ∀ (l : List α), (∀ x ∈ l, 0 ≤ f x) → ∀ acc : Int, 0 ≤ acc →
      0 ≤ l.foldl (fun a x => a + f x) acc := by
  intro l
  induction l with
  | nil => intro _ acc h; simpa using h
  | cons a t ih =>
    intro hf acc hacc
    exact ih (fun x hx => hf x (by simp [hx])) _ (add_nonneg hacc (hf a (by simp)))

theorem evaluatePosition_nonneg (b : Board) (row col player : Int) :
    0 ≤ evaluatePosition b row col player := by
  unfold evaluatePosition
  refine add_nonneg ?_ ?_
  · have h1 := evaluateDirection_nonneg b row col 0 1 player
    have h2 := evaluateDirection_nonneg b row col 1 0 player
    have h3 := evaluateDirection_nonneg b row col 1 1 player
    have h4 := evaluateDirection_nonneg b row col 1 (-1) player
    simp only [directions, List.foldl_cons, List.foldl_nil]
    omega
  · split
    · norm_num
    · split <;> norm_num

theorem evaluateFuturePositions_nonneg (player : Int) :
    ∀ (depth : Nat) (b : Board), 0 ≤ evaluateFuturePositions b player depth := by
  intro depth
  induction depth with
  | zero => intro b; exact le_rfl
  | succ d ih =>
    intro b
    unfold evaluateFuturePositions
    simp only []
    split
    · apply Int.tdiv_nonneg
      · exact foldl_add_nonneg
          (fun col =>
            evaluatePosition (dropPiece b col player).1 (dropPiece b col player).2 col player +
              evaluateFuturePositions (dropPiece b col player).1 player d)
          (getValidMoves b)
          (fun col _ => add_nonneg
            (evaluatePosition_nonneg (dropPiece b col player).1
              (dropPiece b col player).2 col player)
            (ih (dropPiece b col player).1))
          0 le_rfl
      · exact Int.natCast_nonneg _
    · exact le_rfl

theorem stratScore_nonneg (b : Board) (player difficultyLevel col : Int) :
    0 ≤ stratScore b player difficultyLevel col := by
  unfold stratScore
  simp only []
  split
  · exact add_nonneg (evaluatePosition_nonneg _ _ _ _)
      (evaluateFuturePositions_nonneg _ _ _)
  · split
    · exact add_nonneg (evaluatePosition_nonneg _ _ _ _)
        (evaluateFuturePositions_nonneg _ _ _)
    · exact evaluatePosition_nonneg _ _ _ _

/-- The loop of `findBestStrategicMove` either never sees a legal column
(and hands the start value through) or ends on a legal column with a
nonnegative best score. -/
theorem stratFold (b : Board) (player dL : Int) :
    ∀ (l : List Int) (best : Int × Int),
      (best = (-1, -1) ∨ (0 ≤ best.1 ∧ canDropPiece b best.2 = true)) →
      ((l.foldl (stratStep b player dL) best = best ∧
          ∀ col ∈ l, canDropPiece b col = false) ∨
        (0 ≤ (l.foldl (stratStep b player dL) best).1 ∧
          canDropPiece b (l.foldl (stratStep b player dL) best).2 = true)) := by
  intro l
  induction l with
  | nil =>
    intro best _
    exact .inl ⟨rfl, by simp⟩
  | cons a t ih =>
    intro best hinv
    by_cases ha : canDropPiece b a = true
    · have hstep : ∀ best' : Int × Int,
          stratStep b player dL best' a = best' ∨
            stratStep b player dL best' a = (stratScore b player dL a, a) := by
        intro best'
        unfold stratStep
        rw [if_pos ha]
        split
        · exact .inr rfl
        · exact .inl rfl
      have hnew : 0 ≤ (stratStep b player dL best a).1 ∧
          canDropPiece b (stratStep b player dL best a).2 = true := by
        rcases hinv with rfl | hgood
        · -- the start value is always replaced: the candidate score is ≥ 0 > -1
          have heq : stratStep b player dL (-1, -1) a = (stratScore b player dL a, a) := by
            unfold stratStep
            rw [if_pos ha, if_pos
              (by have := stratScore_nonneg b player dL a; simp only []; omega)]
          rw [heq]
          exact ⟨stratScore_nonneg b player dL a, ha⟩
        · rcases hstep best with h | h
          · rw [h]; exact hgood
          · rw [h]; exact ⟨stratScore_nonneg b player dL a, ha⟩
      have := ih (stratStep b player dL best a) (.inr hnew)
      rcases this with ⟨heq, _⟩ | hgood
      · rw [List.foldl_cons]
        rw [heq]
        exact .inr hnew
      · rw [List.foldl_cons]
        exact .inr hgood
    · have hstep : stratStep b player dL best a = best := by
        unfold stratStep
        rw [if_neg ha]
      rcases ih best hinv with ⟨heq, hall⟩ | hgood
      · refine .inl ⟨?_, ?_⟩
        · rw [List.foldl_cons, hstep, heq]
        · intro col hcol
          rcases List.mem_cons.mp hcol with rfl | hcol'
          · exact Bool.not_eq_true _ ▸ (by simpa using ha)
          · exact hall col hcol'
      · rw [List.foldl_cons, hstep]
        exact .inr hgood

theorem find?_some_min (p : Int → Bool) :
    ∀ (l : List Int), l.Pairwise (· ≤ ·) → ∀ c, l.find? p = some c →
      p c = true ∧ ∀ x ∈ l, p x = true → c ≤ x := by
  intro l
  induction l with
  | nil => intro _ c hc; simp at hc
  | cons a t ih =>
    intro hp c hc
    by_cases hpa : p a = true
    · rw [List.find?_cons_of_pos _ hpa] at hc
      obtain rfl : a = c := by injection hc
      refine ⟨hpa, fun x hx _ => ?_⟩
      rcases List.mem_cons.mp hx with rfl | hx'
      · exact le_rfl
      · exact (List.pairwise_cons.mp hp).1 x hx'
    · rw [List.find?_cons_of_neg _ hpa] at hc
      obtain ⟨hpc, hmin⟩ := ih (List.pairwise_cons.mp hp).2 c hc
      refine ⟨hpc, fun x hx hpx => ?_⟩
      rcases List.mem_cons.mp hx with rfl | hx'
      · exact absurd hpx hpa
      · exact hmin x hx' hpx

theorem find?_of_exists {α : Type} (p : α → Bool) (l : List α)
    (h : ∃ x ∈ l, p x = true) : ∃ c, l.find? p = some c := by
  rcases hf : l.find? p with _ | c
  · rw [List.find?_eq_none] at hf
    obtain ⟨x, hx, hpx⟩ := h
    exact absurd hpx (by simpa using hf x hx)
  · exact ⟨c, rfl⟩

/-- C8: when the mistake branch is not taken (difficulty clamped to ≥ 3,
or a non-mistake random draw) and some legal column wins immediately for
the bot's own mark, `GetBestMoveWithDifficulty` returns the
lowest-indexed winning column. -/
theorem claim_C8_immediateWin (b : Board) (player playerWins : Int)
    (mistakeDraw blockDraw : Bool) (fallbackIdx : Nat)
    (hnm : ¬((if 5 < playerWins then 5 else playerWins) < 3 ∧ mistakeDraw = true))
    (hex : ∃ col ∈ colsI, winsImmediately b player col = true) :
    winsImmediately b player
        (GetBestMoveWithDifficulty b player playerWins mistakeDraw blockDraw fallbackIdx)
        = true ∧
      ∀ col ∈ colsI, winsImmediately b player col = true →
        GetBestMoveWithDifficulty b player playerWins mistakeDraw blockDraw fallbackIdx
          ≤ col := by
  obtain ⟨c, hc⟩ := find?_of_exists (winsImmediately b player) colsI hex
  obtain ⟨hpc, hmin⟩ := find?_some_min (winsImmediately b player) colsI (by decide) c hc
  have hres : GetBestMoveWithDifficulty b player playerWins mistakeDraw blockDraw
      fallbackIdx = c := by
    unfold GetBestMoveWithDifficulty
    simp only []
    rw [if_neg hnm, hc]
  rw [hres]
  exact ⟨hpc, hmin⟩

/-- A board where the bot's mark (player 2) has three vertically in
column 0, one drop away from winning. -/
def sampleBoardC8 : Board := fun r c => if c.val = 0 ∧ 3 ≤ r.val then PLAYER2 else EMPTY

theorem claim_C8_immediateWin_witness :
    winsImmediately sampleBoardC8 PLAYER2
        (GetBestMoveWithDifficulty sampleBoardC8 PLAYER2 5 false false 0) = true ∧
      GetBestMoveWithDifficulty sampleBoardC8 PLAYER2 5 false false 0 ≤ 0 :=
  ⟨(claim_C8_immediateWin sampleBoardC8 PLAYER2 5 false false 0 (by decide)
      ⟨0, by decide, by decide⟩).1,
    (claim_C8_immediateWin sampleBoardC8 PLAYER2 5 false false 0 (by decide)
      ⟨0, by decide, by decide⟩).2 0 (by decide) (by decide)⟩

/-- C9: whenever the board has at least one legal column,
`findBestStrategicMove` returns a legal column and never the sentinel
-1 — every legal candidate scores at least 0 against the initial best
score of -1 — so the center-preference and random-fallback steps of
`GetBestMoveWithDifficulty` are reachable only on a board with no legal
column. -/
theorem claim_C9_strategicMove (b : Board) (player difficultyLevel : Int)
    (hex : ∃ col ∈ colsI, canDropPiece b col = true) :
    canDropPiece b (findBestStrategicMove b player difficultyLevel) = true ∧
      findBestStrategicMove b player difficultyLevel ≠ -1 := by
  unfold findBestStrategicMove
  rcases stratFold b player difficultyLevel colsI (-1, -1) (.inl rfl) with
    ⟨_, hall⟩ | ⟨_, hgood⟩
  · obtain ⟨c, hcmem, hcdrop⟩ := hex
    rw [hall c hcmem] at hcdrop
    cases hcdrop
  · refine ⟨hgood, fun hcon => ?_⟩
    rw [hcon] at hgood
    simp [canDropPiece] at hgood

theorem claim_C9_strategicMove_witness :
    canDropPiece emptyBoard (findBestStrategicMove emptyBoard PLAYER2 0) = true ∧
      findBestStrategicMove emptyBoard PLAYER2 0 ≠ -1 :=
  claim_C9_strategicMove emptyBoard PLAYER2 0 ⟨0, by decide, by decide⟩

end Connect4
